import Mathlib

set_option maxHeartbeats 1000000
set_option maxRecDepth 100000

/-!
Shallow embedding of `src/osint.js`, a single-file OSINT lookup aggregator.

Modelling conventions:
* JS strings are modelled as `List Char` (`Str` below); JS string methods
  (`trim`, `split`, `replace`, `includes`, `startsWith`, regex `match`) are
  translated into executable list functions.
* The opaque transport primitives (global `fetch`, `dns.promises` resolvers)
  are modelled by passing their outcome as an `Except` parameter: a thrown
  transport/parse error becomes `Except.error`, a delivered value `Except.ok`.
  A JS function's `try`/`catch` then becomes a `match` on that outcome.
* JSON values are modelled by a small inductive `Json`.
* Functions whose JS loops consume at least one character per step are made
  structurally recursive on a character-count fuel, initialised to the string
  length, so that they evaluate by kernel reduction.
-/

/-- JS strings, modelled as lists of characters. -/
abbrev Str := List Char

/-- The character class `[0-9]` (also JS `\d`): code points 48 through 57. -/
def isDigitChar (c : Char) : Bool := 48 ≤ c.toNat && c.toNat ≤ 57

/-- The whitespace characters stripped by `String.prototype.trim` that are
relevant here: tab, LF, VT, FF, CR, space. -/
def isWs (c : Char) : Bool :=
  c.toNat = 32 || c.toNat = 9 || c.toNat = 10 || c.toNat = 11 ||
    c.toNat = 12 || c.toNat = 13

/-- `s.trim()`: strip whitespace from both ends. -/
def trimStr (s : Str) : Str :=
  ((s.dropWhile isWs).reverse.dropWhile isWs).reverse

/- ----------------- Phone helpers (src/osint.js, `normalizePhone`) ----------------- -/

/-- `s.replace(/[^\d+]/g, "")`: keep only digits and plus signs. -/
def keepPhoneChars (s : Str) : Str := s.filter (fun c => isDigitChar c || c == '+')

/-- `s.replace(/^(\+)+/, "+")`: collapse a leading run of plus signs into a
single plus sign (a string not starting with a plus sign is unchanged). -/
def collapsePlus (s : Str) : Str :=
  match s with
  | [] => []
  | c :: r => if c == '+' then '+' :: (r.dropWhile (fun x => x == '+')) else c :: r

/-- `s.startsWith("00")`. -/
def starts00 (s : Str) : Bool :=
  match s with
  | c :: d :: _ => c == '0' && d == '0'
  | _ => false

/-- `if (s.startsWith("00")) s = "+" + s.slice(2)`: rewrite a leading
international prefix `00` into `+`. -/
def rewrite00 (s : Str) : Str :=
  match s with
  | c :: d :: r => if c == '0' && d == '0' then '+' :: r else c :: d :: r
  | _ => s

/-- The record `{ raw, cleaned, digits, e164 }` returned by `normalizePhone`. -/
structure PhoneRecord where
  raw : Str
  cleaned : Str
  digits : Str
  e164 : Str
deriving DecidableEq

/-- The cleaning pipeline of `normalizePhone`: trim, keep digits and plus
signs, collapse leading plus signs, rewrite a leading `00`. -/
def cleanedOf (raw : Str) : Str :=
  rewrite00 (collapsePlus (keepPhoneChars (trimStr raw)))

/-- `normalizePhone(raw)` from src/osint.js. `!raw` is true exactly for the
empty string (the argument is always a string here), so empty input yields
`null` (`none`); otherwise the cleaned form, the digits-only form
(`s.replace(/\D/g, "")`), and the e164-like form
(`s.startsWith("+") ? "+" + digits : digits`) are derived. -/
def normalizePhone (raw : Str) : Option PhoneRecord :=
  if raw = [] then none
  else
    some { raw := raw
         , cleaned := cleanedOf raw
         , digits := (cleanedOf raw).filter isDigitChar
         , e164 := if (cleanedOf raw).head? = some '+'
                   then '+' :: (cleanedOf raw).filter isDigitChar
                   else (cleanedOf raw).filter isDigitChar }

/- ----------------- Type classifier (src/osint.js, `looksLikeIP`) ----------------- -/

/-- Split a string at every `'.'` (the group structure imposed by the anchored
regex `^[0-9]+\.[0-9]+\.[0-9]+\.[0-9]+$`): always returns at least one group. -/
def splitDots : Str → List Str
  | [] => [[]]
  | c :: r =>
    if c == '.' then [] :: splitDots r
    else
      match splitDots r with
      | g :: gs => (c :: g) :: gs
      | [] => [[c]]

/-- One regex group `[0-9]+`: non-empty and all digits. -/
def isDigits (g : Str) : Bool := !g.isEmpty && g.all isDigitChar

/-- `/^[0-9]+\.[0-9]+\.[0-9]+\.[0-9]+$/.test(q)`: the string is exactly four
dot-separated non-empty digit groups. -/
def dottedQuad (q : Str) : Bool :=
  match splitDots q with
  | [a, b, c, d] => isDigits a && isDigits b && isDigits c && isDigits d
  | _ => false

/-- `looksLikeIP(q)` from src/osint.js: dotted-quad test OR `q.includes(":")`. -/
def looksLikeIP (q : Str) : Bool := dottedQuad q || q.contains ':'

/- ----------------- DuckDuckGo scraper (src/osint.js, `duckDuckGoSearch`) ----------------- -/

/-- Case-insensitive character comparison (regex flag `i`). -/
def eqI (a b : Char) : Bool := a.toLower == b.toLower

/-- Case-insensitive literal-prefix test. -/
def prefixEqI : Str → Str → Bool
  | [], _ => true
  | _ :: _, [] => false
  | a :: as, b :: bs => eqI a b && prefixEqI as bs

/-- One atom of the (fixed, concrete) regexes used by the scraper:
a case-insensitive literal, a greedy `[^c]*`, a capturing greedy `([^c]+)`,
or the capturing lazy dot-all `(.*?)` / `([\s\S]*?)`. Each scraper regex has
exactly one capturing group. -/
inductive Atom where
  | lit : Str → Atom
  | starNot : Char → Atom
  | capPlusNot : Char → Atom
  | capLazy : Atom

/-- Greedy backtracking for `[^c]*`: try consuming `k, k-1, ..., 0` characters
(longest first), continuing with `next` on the rest. -/
def tryGreedy (next : Str → Option (Option Str)) (s : Str) : Nat → Option (Option Str)
  | 0 => next s
  | k + 1 =>
    match next (s.drop (k + 1)) with
    | some r => some r
    | none => tryGreedy next s k

/-- Greedy backtracking for the capturing `([^c]+)`: try consuming
`k, k-1, ..., 1` characters (longest first, at least one); on success the
consumed characters are the captured group. -/
def tryGreedyCap (next : Str → Option (Option Str)) (s : Str) : Nat → Option (Option Str)
  | 0 => none
  | k + 1 =>
    match next (s.drop (k + 1)) with
    | some _ => some (some (s.take (k + 1)))
    | none => tryGreedyCap next s k

/-- Lazy matching for the capturing `(.*?)` (dot-all): try consuming
`k, k+1, ...` characters (shortest first), bounded by the remaining fuel; on
success the consumed characters are the captured group. -/
def tryLazyCap (next : Str → Option (Option Str)) (s : Str) (k : Nat) :
    Nat → Option (Option Str)
  | 0 =>
    match next (s.drop k) with
    | some _ => some (some (s.take k))
    | none => none
  | f + 1 =>
    match next (s.drop k) with
    | some _ => some (some (s.take k))
    | none => tryLazyCap next s (k + 1) f

/-- Match a sequence of atoms against a prefix of `s` (a regex match need not
reach the end of the string), returning `some cap` on success, where `cap` is
the captured group if one was exercised. The fuel is the number of atoms still
to process; `matchAtoms` below supplies exactly enough. -/
def matchAtomsF : Nat → List Atom → Str → Option (Option Str)
  | _, [], _ => some none
  | 0, _ :: _, _ => none
  | f + 1, Atom.lit cs :: ps, s =>
    if prefixEqI cs s then matchAtomsF f ps (s.drop cs.length) else none
  | f + 1, Atom.starNot c :: ps, s =>
    tryGreedy (matchAtomsF f ps) s (s.takeWhile (fun x => x ≠ c)).length
  | f + 1, Atom.capPlusNot c :: ps, s =>
    tryGreedyCap (matchAtomsF f ps) s (s.takeWhile (fun x => x ≠ c)).length
  | f + 1, Atom.capLazy :: ps, s =>
    tryLazyCap (matchAtomsF f ps) s 0 s.length

/-- Match a sequence of atoms at the start of `s`. -/
def matchAtoms (ps : List Atom) (s : Str) : Option (Option Str) :=
  matchAtomsF ps.length ps s

/-- JS `part.match(re)[1]`: find the leftmost position where the pattern
matches and return its captured group (every scraper pattern has exactly one
group, always exercised in a full match). -/
def findMatch (ps : List Atom) : Str → Option Str
  | [] =>
    match matchAtoms ps [] with
    | some (some cap) => some cap
    | _ => none
  | c :: r =>
    match matchAtoms ps (c :: r) with
    | some (some cap) => some cap
    | _ => findMatch ps r

/-- `/<a[^>]*class="[^"]*result__a[^"]*"[^>]*href="([^"]+)"/i`. -/
def hrefPat1 : List Atom :=
  [Atom.lit "<a".toList, Atom.starNot '>', Atom.lit "class=\"".toList,
   Atom.starNot '"', Atom.lit "result__a".toList, Atom.starNot '"',
   Atom.lit "\"".toList, Atom.starNot '>', Atom.lit "href=\"".toList,
   Atom.capPlusNot '"', Atom.lit "\"".toList]

/-- `/<a[^>]*href="([^"]+)"[^>]*>/i`. -/
def hrefPat2 : List Atom :=
  [Atom.lit "<a".toList, Atom.starNot '>', Atom.lit "href=\"".toList,
   Atom.capPlusNot '"', Atom.lit "\"".toList, Atom.starNot '>',
   Atom.lit ">".toList]

/-- `/<a[^>]*class="[^"]*result__a[^"]*"[^>]*>(.*?)<\/a>/is`. -/
def titlePat1 : List Atom :=
  [Atom.lit "<a".toList, Atom.starNot '>', Atom.lit "class=\"".toList,
   Atom.starNot '"', Atom.lit "result__a".toList, Atom.starNot '"',
   Atom.lit "\"".toList, Atom.starNot '>', Atom.lit ">".toList,
   Atom.capLazy, Atom.lit "</a>".toList]

/-- `/<a[^>]*>(.*?)<\/a>/is`. -/
def titlePat2 : List Atom :=
  [Atom.lit "<a".toList, Atom.starNot '>', Atom.lit ">".toList,
   Atom.capLazy, Atom.lit "</a>".toList]

/-- `/class="result__snippet"[^>]*>([\s\S]*?)<\/div>/i`. -/
def snippetPat : List Atom :=
  [Atom.lit "class=\"result__snippet\"".toList, Atom.starNot '>',
   Atom.lit ">".toList, Atom.capLazy, Atom.lit "</div>".toList]

/-- The body of one tag for the strip regex `<\/?[^>]+(>|$)`: a non-empty run
of non-`>` characters followed by `>` or the end of the string; returns the
remainder after the tag on success. -/
def tagBody (body : Str) : Option Str :=
  let run := body.takeWhile (fun c => c ≠ '>')
  if run.length = 0 then none
  else
    match body.drop run.length with
    | '>' :: rem => some rem
    | _ => some []

/-- A tag starting right after a `<` for the strip regex: the optional `\/?`
is tried greedily (slash consumed first), with backtracking to the slash-less
reading, mirroring the regex engine. -/
def tagEnd (rest : Str) : Option Str :=
  match rest with
  | '/' :: r =>
    match tagBody r with
    | some rem => some rem
    | none => tagBody rest
  | _ => tagBody rest

/-- `s.replace(/<\/?[^>]+(>|$)/g, "")`, on fuel: each step either copies one
character or removes one whole tag (which consumes at least two characters),
so `s.length` steps always suffice. -/
def stripTagsF : Nat → Str → Str
  | _, [] => []
  | 0, s => s
  | f + 1, '<' :: rest =>
    match tagEnd rest with
    | some rem => stripTagsF f rem
    | none => '<' :: stripTagsF f rest
  | f + 1, c :: rest => c :: stripTagsF f rest

/-- `s.replace(/<\/?[^>]+(>|$)/g, "")`: remove every tag-like span. -/
def stripTags (s : Str) : Str := stripTagsF s.length s

/-- First occurrence of `sep` in `s`: `some (before, after)` splits `s` as
`before ++ sep ++ after` at the leftmost occurrence. -/
def breakSeq (sep : Str) : Str → Option (Str × Str)
  | [] => if sep.isPrefixOf ([] : Str) then some ([], []) else none
  | c :: r =>
    if sep.isPrefixOf (c :: r) then some ([], (c :: r).drop sep.length)
    else
      match breakSeq sep r with
      | some (a, b) => some (c :: a, b)
      | none => none

/-- `s.split(sep)`, on fuel: each split step consumes at least the (non-empty)
separator, so `s.length + 1` steps always suffice. -/
def splitSeqF (sep : Str) : Nat → Str → List Str
  | 0, s => [s]
  | f + 1, s =>
    match breakSeq sep s with
    | none => [s]
    | some (a, b) => a :: splitSeqF sep f b

/-- `s.split(sep)` for a non-empty separator. -/
def splitSeq (sep s : Str) : List Str := splitSeqF sep (s.length + 1) s

/-- The result-container separator literal `'<div class="result'`. -/
def resultSep : Str := "<div class=\"result".toList

/-- One `{ title, snippet, link }` record pushed by the scraper. -/
structure SearchResult where
  title : Str
  snippet : Str
  link : Str
deriving DecidableEq

/-- The `hrefMatch` line: primary pattern, `||`-fallback to the generic
anchor pattern, then `hrefMatch ? hrefMatch[1] : null`. -/
def hrefOf (part : Str) : Option Str :=
  (findMatch hrefPat1 part).orElse (fun _ => findMatch hrefPat2 part)

/-- The `titleMatch` line and `titleMatch ? strip(titleMatch[1]).trim() : null`. -/
def titleOf (part : Str) : Option Str :=
  ((findMatch titlePat1 part).orElse (fun _ => findMatch titlePat2 part)).map
    (fun t => trimStr (stripTags t))

/-- The `snippetMatch` line and `snippetMatch ? strip(snippetMatch[1]).trim() : ""`. -/
def snippetOf (part : Str) : Str :=
  match findMatch snippetPat part with
  | some t => trimStr (stripTags t)
  | none => []

/-- The scraper's `for (const part of parts.slice(1))` loop: stop as soon as
`results.length >= maxResults`; in each container take the href (JS truthiness
of a string is non-emptiness, so `if (href)` skips `null` and the empty
string), default the title to the href when the title is `null` or empty
(`title || href`), and push `{ title, snippet, link: href }`. -/
def extractLoop (maxResults : Nat) : List Str → List SearchResult → List SearchResult
  | [], acc => acc
  | part :: rest, acc =>
    if maxResults ≤ acc.length then acc
    else
      match hrefOf part with
      | none => extractLoop maxResults rest acc
      | some href =>
        if href = [] then extractLoop maxResults rest acc
        else
          extractLoop maxResults rest
            (acc ++ [{ title := match titleOf part with
                                | some t => if t = [] then href else t
                                | none => href
                     , snippet := snippetOf part
                     , link := href }])

/-- Extract up to `maxResults` records from the fetched HTML text: split at
result-container boundaries, skip the text before the first container
(`parts.slice(1)`), then run the extraction loop. -/
def extractResults (text : Str) (maxResults : Nat) : List SearchResult :=
  extractLoop maxResults ((splitSeq resultSep text).drop 1) []

/-- `duckDuckGoSearch(query, maxResults)` from src/osint.js. The text fetch of
the search URL for the query is the opaque transport primitive; its outcome is
the `fetched` parameter (the query only enters through it). The whole body is
wrapped in `try`/`catch` returning `[]`: a transport error (`Except.error`)
yields `[]`, and the extraction itself is total, so no error escapes. -/
def duckDuckGoSearch (fetched : Except Str Str) (maxResults : Nat) : List SearchResult :=
  match fetched with
  | Except.error _ => []
  | Except.ok text => extractResults text maxResults

/- ----------------- JSON values ----------------- -/

/-- Parsed JSON values (the bodies delivered by `res.json()`). -/
inductive Json where
  | null : Json
  | bool : Bool → Json
  | num : Int → Json
  | str : Str → Json
  | arr : List Json → Json
  | obj : List (Str × Json) → Json

/- ----------------- IP tools (src/osint.js, `ipGeolocation`, `rdapLookup`) ----------------- -/

/-- `ipGeolocation(ip)` from src/osint.js. The JSON fetch of the ip-api.com
URL for the address is the opaque transport primitive; `fetched` is its
outcome (a transport error or a non-JSON body is `Except.error` carrying the
error message). On success the parsed body is returned unchanged; on failure
the `catch` returns `{ status: "fail", message: e.message }`. -/
def ipGeolocation (fetched : Except Str Json) : Json :=
  match fetched with
  | Except.ok j => j
  | Except.error msg =>
    Json.obj [("status".toList, Json.str "fail".toList),
              ("message".toList, Json.str msg)]

/-- An HTTP response as seen by `rdapLookup`: the status code and the outcome
of reading the body as JSON (`res.json()` throws on a non-JSON body). -/
structure HttpResponse where
  status : Nat
  jsonBody : Except Str Json

/-- `res.ok` per the WHATWG fetch specification: status in the range 200-299. -/
def resOk (r : HttpResponse) : Bool :=
  decide (200 ≤ r.status) && decide (r.status ≤ 299)

/-- `rdapLookup(kind, name)` from src/osint.js. The fetch of the rdap.org URL
built from `kind` and `name` is the opaque transport primitive; `fetched` is
its outcome. A network error returns `null` via the `catch`; a delivered
response with `!res.ok` returns `null`; otherwise the parsed JSON body is
returned, a parse error again reaching the `catch` (`null`). -/
def rdapLookup (fetched : Except Str HttpResponse) : Option Json :=
  match fetched with
  | Except.error _ => none
  | Except.ok r =>
    if resOk r then
      match r.jsonBody with
      | Except.ok j => some j
      | Except.error _ => none
    else none

/- ----------------- DNS records (src/osint.js, `dnsRecords`) ----------------- -/

/-- The outcomes of the six independent resolver calls made by `dnsRecords`
(the opaque `dns.promises` primitives): a rejection carries the error, a
delivered answer the record values. Record values are modelled as strings
(the MX answer objects are serialized). -/
structure DnsOutcomes where
  A : Except Str (List Str)
  AAAA : Except Str (List Str)
  MX : Except Str (List Str)
  TXT : Except Str (List Str)
  NS : Except Str (List Str)
  CNAME : Except Str (List Str)

/-- The `.catch(() => [])` (and the enclosing `try`/`catch` assigning `[]`)
around each resolver call: any failure becomes the empty list. -/
def recoverList (r : Except Str (List Str)) : List Str :=
  match r with
  | Except.ok v => v
  | Except.error _ => []

/-- `dnsRecords(name)` from src/osint.js: build the `out` object by assigning
the six keys in source order, each from its own resolver outcome with failures
recovered to `[]`. The object is modelled as an association list in insertion
order. -/
def dnsRecords (o : DnsOutcomes) : List (Str × List Str) :=
  [("A".toList, recoverList o.A),
   ("AAAA".toList, recoverList o.AAAA),
   ("MX".toList, recoverList o.MX),
   ("TXT".toList, recoverList o.TXT),
   ("NS".toList, recoverList o.NS),
   ("CNAME".toList, recoverList o.CNAME)]

/-- Property access `out[k]` on the association list. -/
def lookupKey (k : Str) : List (Str × List Str) → Option (List Str)
  | [] => none
  | (k', v) :: rest => if k = k' then some v else lookupKey k rest

/- ===================== Helper lemmas ===================== -/

lemma dropWhile_eq_self_of {p : Char → Bool} {s : Str} (h : ∀ c ∈ s, p c = false) :
    s.dropWhile p = s := by
  cases s with
  | nil => rfl
  | cons c r => rw [List.dropWhile_cons, h c (List.mem_cons_self c r)]; simp

lemma trim_eq_self {s : Str} (h : ∀ c ∈ s, isWs c = false) : trimStr s = s := by
  unfold trimStr
  rw [dropWhile_eq_self_of h,
      dropWhile_eq_self_of (fun c hc => h c (List.mem_reverse.mp hc)),
      List.reverse_reverse]

lemma isDigit_not_ws {c : Char} (h : isDigitChar c = true) : isWs c = false := by
  simp only [isDigitChar, Bool.and_eq_true, decide_eq_true_eq] at h
  simp only [isWs, Bool.or_eq_false_iff, decide_eq_false_iff_not]
  omega

lemma isDigit_ne_plus {c : Char} (h : isDigitChar c = true) : (c == '+') = false := by
  rw [beq_eq_false_iff_ne]
  rintro rfl
  exact absurd h (by decide)

lemma isDigit_ne_dot {c : Char} (h : isDigitChar c = true) : (c == '.') = false := by
  rw [beq_eq_false_iff_ne]
  rintro rfl
  exact absurd h (by decide)

/- ===================== C4: geolocation adapter ===================== -/

/-- Claim C4: `ipGeolocation` never raises: on a transport or parse failure of
the upstream JSON fetch it returns a `status: "fail"` record carrying the
error message, and on success it returns the upstream JSON record unchanged. -/
theorem ipGeolocation_total (j : Json) (e : Str) :
    ipGeolocation (Except.ok j) = j ∧
    ipGeolocation (Except.error e) =
      Json.obj [("status".toList, Json.str "fail".toList),
                ("message".toList, Json.str e)] :=
  ⟨rfl, rfl⟩

/- ===================== C3: RDAP adapter ===================== -/

/-- Claim C3: `rdapLookup` returns the parsed JSON body exactly when the
upstream HTTP response is successful (2xx); any non-OK status (such as 404),
any network error and any parse error yield `null`, and no exception
escapes. -/
theorem rdapLookup_http_contract (status : Nat) (j : Json) (pe e : Str) :
    (200 ≤ status → status ≤ 299 →
      rdapLookup (Except.ok ⟨status, Except.ok j⟩) = some j) ∧
    (¬(200 ≤ status ∧ status ≤ 299) →
      rdapLookup (Except.ok ⟨status, Except.ok j⟩) = none) ∧
    rdapLookup (Except.ok ⟨status, Except.error pe⟩) = none ∧
    rdapLookup (Except.error e) = none := by
  refine ⟨fun h1 h2 => ?_, fun h => ?_, ?_, rfl⟩
  · simp [rdapLookup, resOk, h1, h2]
  · have hok : resOk ⟨status, Except.ok j⟩ = false := by
      simp only [resOk, Bool.and_eq_false_iff, decide_eq_false_iff_not]
      omega
    simp [rdapLookup, hok]
  · simp [rdapLookup]

/-- Witness for C3 at concrete statuses 200 (success) and 404 (non-OK). -/
theorem rdapLookup_http_contract_witness :
    rdapLookup (Except.ok ⟨200, Except.ok Json.null⟩) = some Json.null ∧
    rdapLookup (Except.ok ⟨404, Except.ok Json.null⟩) = none :=
  ⟨(rdapLookup_http_contract 200 Json.null [] []).1 (by decide) (by decide),
   (rdapLookup_http_contract 404 Json.null [] []).2.1 (by decide)⟩

/- ===================== C2: DNS adapter ===================== -/

/-- Claim C2: `dnsRecords` always returns a mapping with exactly the six keys
A, AAAA, MX, TXT, NS, CNAME in insertion order; each key's value is computed
from its own resolver outcome alone (failures are recovered per key, never
aborting the others, and no error escapes), and a failed resolution yields an
empty list for that key, never an absent key. -/
theorem dnsRecords_complete (o : DnsOutcomes) :
    (dnsRecords o).map Prod.fst =
      ["A".toList, "AAAA".toList, "MX".toList,
       "TXT".toList, "NS".toList, "CNAME".toList] ∧
    lookupKey "A".toList (dnsRecords o) = some (recoverList o.A) ∧
    lookupKey "AAAA".toList (dnsRecords o) = some (recoverList o.AAAA) ∧
    lookupKey "MX".toList (dnsRecords o) = some (recoverList o.MX) ∧
    lookupKey "TXT".toList (dnsRecords o) = some (recoverList o.TXT) ∧
    lookupKey "NS".toList (dnsRecords o) = some (recoverList o.NS) ∧
    lookupKey "CNAME".toList (dnsRecords o) = some (recoverList o.CNAME) ∧
    (∀ e, o.MX = Except.error e →
      lookupKey "MX".toList (dnsRecords o) = some []) := by
  refine ⟨rfl, rfl, rfl, rfl, rfl, rfl, rfl, fun e h => ?_⟩
  show some (recoverList o.MX) = some []
  rw [h]
  rfl

/-- Witness for C2: a name whose MX resolution rejects still yields `MX: []`. -/
theorem dnsRecords_complete_witness :
    lookupKey "MX".toList
      (dnsRecords ⟨Except.ok [], Except.ok [], Except.error "NXDOMAIN".toList,
                   Except.ok [], Except.ok [], Except.ok []⟩) = some [] :=
  (dnsRecords_complete _).2.2.2.2.2.2.2 "NXDOMAIN".toList rfl

/- ===================== C6: classifier, colon heuristic ===================== -/

/-- Claim C6: every string containing a colon is classified as IP by
`looksLikeIP`, even when it is not an IP address (the documented quirk for
strings such as a domain with a port suffix). -/
theorem looksLikeIP_colon (q : Str) (h : q.contains ':' = true) :
    looksLikeIP q = true := by
  unfold looksLikeIP
  rw [h, Bool.or_true]

/-- Witness for C6 at `"example.com:8080"`, which is not a dotted quad. -/
theorem looksLikeIP_colon_witness : looksLikeIP "example.com:8080".toList = true :=
  looksLikeIP_colon "example.com:8080".toList (by decide)

/- ===================== C5: classifier, dotted quad ===================== -/

lemma splitDots_nodot {a : Str} (h : ∀ c ∈ a, (c == '.') = false) :
    splitDots a = [a] := by
  induction a with
  | nil => rfl
  | cons c r ih =>
    have hc := h c (List.mem_cons_self c r)
    have hr := ih (fun x hx => h x (List.mem_cons_of_mem c hx))
    simp only [splitDots, hc, Bool.false_eq_true, if_false, hr]

lemma splitDots_append {a : Str} (rest : Str) (h : ∀ c ∈ a, (c == '.') = false) :
    splitDots (a ++ '.' :: rest) = a :: splitDots rest := by
  induction a with
  | nil => simp [splitDots]
  | cons c r ih =>
    have hc := h c (List.mem_cons_self c r)
    have hr := ih (fun x hx => h x (List.mem_cons_of_mem c hx))
    simp only [List.cons_append, splitDots, hc, Bool.false_eq_true, if_false,
      List.append_eq]
    rw [hr]

lemma isDigits_nodot {g : Str} (h : isDigits g = true) :
    ∀ c ∈ g, (c == '.') = false := by
  intro c hc
  simp only [isDigits, Bool.and_eq_true, List.all_eq_true] at h
  exact isDigit_ne_dot (h.2 c hc)

/-- Claim C5: every string made of four dot-separated non-empty decimal
groups is classified as IP by `looksLikeIP`. (`looksLikeIP` takes no type
hint, so its verdict cannot depend on any declared hint.) -/
theorem looksLikeIP_dotted_quad (a b c d : Str)
    (ha : isDigits a = true) (hb : isDigits b = true)
    (hc : isDigits c = true) (hd : isDigits d = true) :
    looksLikeIP (a ++ ('.' :: (b ++ ('.' :: (c ++ ('.' :: d)))))) = true := by
  have hsplit : splitDots (a ++ ('.' :: (b ++ ('.' :: (c ++ ('.' :: d)))))) = [a, b, c, d] := by
    rw [splitDots_append _ (isDigits_nodot ha),
        splitDots_append _ (isDigits_nodot hb),
        splitDots_append _ (isDigits_nodot hc),
        splitDots_nodot (isDigits_nodot hd)]
  have hq : dottedQuad (a ++ ('.' :: (b ++ ('.' :: (c ++ ('.' :: d)))))) = true := by
    unfold dottedQuad
    rw [hsplit]
    simp [ha, hb, hc, hd]
  unfold looksLikeIP
  rw [hq, Bool.true_or]

/-- Witness for C5 at `"10.0.0.1"`. -/
theorem looksLikeIP_dotted_quad_witness : looksLikeIP "10.0.0.1".toList = true :=
  looksLikeIP_dotted_quad "10".toList "0".toList "0".toList "1".toList
    (by decide) (by decide) (by decide) (by decide)

/- ===================== C1: scraper never throws ===================== -/

lemma splitSeq_no_sep {sep t : Str} (h : breakSeq sep t = none) :
    splitSeq sep t = [t] := by
  unfold splitSeq splitSeqF
  rw [h]

/-- Claim C1: `duckDuckGoSearch` never throws: a transport error of the text
fetch yields `[]`; empty HTML yields `[]`; and any fetched text with no
result-container marker at all yields `[]` (extraction of any text is total by
construction, so no input can raise). -/
theorem duckDuckGoSearch_never_throws :
    (∀ e m, duckDuckGoSearch (Except.error e) m = []) ∧
    (∀ m, duckDuckGoSearch (Except.ok []) m = []) ∧
    (∀ t m, breakSeq resultSep t = none → duckDuckGoSearch (Except.ok t) m = []) := by
  refine ⟨fun e m => rfl, fun m => rfl, fun t m h => ?_⟩
  show extractResults t m = []
  unfold extractResults
  rw [splitSeq_no_sep h]
  rfl

/-- Witness for C1: markup with no result container yields the empty list. -/
theorem duckDuckGoSearch_never_throws_witness :
    duckDuckGoSearch (Except.ok "<html><body>nothing here</body></html>".toList) 6 = [] :=
  duckDuckGoSearch_never_throws.2.2 "<html><body>nothing here</body></html>".toList 6
    (by decide)

/- ===================== C9: scraper honours maxResults ===================== -/

lemma extractLoop_length_le (m : Nat) :
    ∀ parts acc, acc.length ≤ m → (extractLoop m parts acc).length ≤ m := by
  intro parts
  induction parts with
  | nil => intro acc h; exact h
  | cons part rest ih =>
    intro acc h
    rw [extractLoop]
    split
    · exact h
    · split
      · exact ih acc h
      · split
        · exact ih acc h
        · apply ih
          rw [List.length_append, List.length_singleton]
          omega

/-- Claim C9: for every fetch outcome and every `maxResults`, the scraper
returns at most `maxResults` entries (the loop stops as soon as that many have
been collected, however many further containers match). -/
theorem duckDuckGoSearch_le_maxResults (fetched : Except Str Str) (m : Nat) :
    (duckDuckGoSearch fetched m).length ≤ m := by
  cases fetched with
  | error e => simp [duckDuckGoSearch]
  | ok t => exact extractLoop_length_le m _ [] (by simp)

/- ===================== C10: emitted records are well-formed ===================== -/

lemma extractLoop_mem_wf (m : Nat) :
    ∀ parts acc r, (∀ x ∈ acc, x.link ≠ [] ∧ x.title ≠ []) →
      r ∈ extractLoop m parts acc → r.link ≠ [] ∧ r.title ≠ [] := by
  intro parts
  induction parts with
  | nil => intro acc r hacc hr; exact hacc r hr
  | cons part rest ih =>
    intro acc r hacc hr
    rw [extractLoop] at hr
    split at hr
    · exact hacc r hr
    · split at hr
      · exact ih acc r hacc hr
      · rename_i href hh
        split at hr
        · exact ih acc r hacc hr
        · rename_i he
          refine ih _ r (fun x hx => ?_) hr
          rcases List.mem_append.mp hx with h1 | h2
          · exact hacc x h1
          · rw [List.mem_singleton] at h2
            subst h2
            refine ⟨he, ?_⟩
            show (match titleOf part with
                  | some t => if t = [] then href else t
                  | none => href) ≠ []
            cases titleOf part with
            | none => exact he
            | some t =>
              by_cases ht : t = []
              · simp only [ht, if_pos rfl]; exact he
              · simp only [if_neg ht]; exact ht

/-- Claim C10: every record emitted by the scraper has a non-empty link (a
record is pushed only when a truthy href was matched) and a non-empty title
(the title defaults to the href when missing or empty); a missing snippet
defaults to the empty string. -/
theorem duckDuckGoSearch_wellformed :
    (∀ fetched m r, r ∈ duckDuckGoSearch fetched m → r.link ≠ [] ∧ r.title ≠ []) ∧
    (∀ part, findMatch snippetPat part = none → snippetOf part = []) := by
  constructor
  · intro fetched m r hr
    cases fetched with
    | error e => exact absurd hr (by simp [duckDuckGoSearch])
    | ok t => exact extractLoop_mem_wf m _ [] r (by simp) hr
  · intro part h
    unfold snippetOf
    rw [h]

/-- The demo markup used by the scraper witnesses: one result container whose
anchor has no `result__a` class, exercising the fallback patterns. -/
def ddgDemoText : Str := "<div class=\"result\"><a href=\"u\">T</a>".toList

/-- Witness for C10: the record extracted from the demo markup has a non-empty
link and title. -/
theorem duckDuckGoSearch_wellformed_witness :
    (SearchResult.mk "T".toList [] "u".toList).link ≠ [] ∧
    (SearchResult.mk "T".toList [] "u".toList).title ≠ [] :=
  duckDuckGoSearch_wellformed.1 (Except.ok ddgDemoText) 6
    (SearchResult.mk "T".toList [] "u".toList) (by decide)

/- ===================== C7: e164 derivation ===================== -/

/-- The spec's illustration input `"+1 (555) 123-4567"`. -/
def phoneExample : Str := "+1 (555) 123-4567".toList

/-- The record `normalizePhone` produces for [phoneExample]. -/
def phoneExampleRec : PhoneRecord :=
  ⟨phoneExample, "+15551234567".toList, "15551234567".toList, "+15551234567".toList⟩

/-- Counterexample to C7 as stated: for raw input `"1+2"` the cleaned form
`"1+2"` contains a `'+'`, yet the e164-like form is `"12"`, not `"+12"` —
the code tests `startsWith("+")`, not presence of a `'+'`. -/
theorem normalizePhone_e164_cex :
    normalizePhone "1+2".toList =
      some ⟨"1+2".toList, "1+2".toList, "12".toList, "12".toList⟩ ∧
    '+' ∈ "1+2".toList ∧ ("12".toList : Str) ≠ '+' :: "12".toList := by
  decide

/-- Claim C7 (amended): for every non-empty raw input the e164-like form is
`'+'` followed by the digits-only form when the cleaned form starts with
`'+'` (rather than merely containing one), and the digits-only form
otherwise; the spec's illustration `"+1 (555) 123-4567"` yields digits
`"15551234567"` and e164 `"+15551234567"`. -/
theorem normalizePhone_e164_amended :
    (∀ raw rec, normalizePhone raw = some rec →
      rec.e164 = if rec.cleaned.head? = some '+'
                 then '+' :: rec.digits else rec.digits) ∧
    normalizePhone phoneExample = some phoneExampleRec := by
  constructor
  · intro raw rec h
    unfold normalizePhone at h
    split at h
    · exact absurd h (by simp)
    · rw [Option.some.injEq] at h
      subst h
      rfl
  · decide

/-- Witness for C7 at the spec's illustration input. -/
theorem normalizePhone_e164_amended_witness :
    phoneExampleRec.e164 = (if phoneExampleRec.cleaned.head? = some '+'
                            then '+' :: phoneExampleRec.digits
                            else phoneExampleRec.digits) :=
  normalizePhone_e164_amended.1 phoneExample phoneExampleRec (by decide)

/- ===================== C8: idempotence of the normalizer ===================== -/

lemma filter_eq_self_of {p : Char → Bool} {s : Str} (h : ∀ c ∈ s, p c = true) :
    s.filter p = s :=
  List.filter_eq_self.mpr h

lemma rewrite00_id {s : Str} (h : starts00 s = false) : rewrite00 s = s := by
  rcases s with _ | ⟨c, _ | ⟨d, r⟩⟩
  · rfl
  · rfl
  · simp only [starts00] at h
    simp only [rewrite00, h, Bool.false_eq_true, if_false]

lemma cleanedOf_plus_digits {ds : Str} (hds : ∀ c ∈ ds, isDigitChar c = true) :
    cleanedOf ('+' :: ds) = '+' :: ds := by
  have hws : ∀ c ∈ ('+' :: ds), isWs c = false := by
    intro c hc
    rcases List.mem_cons.mp hc with rfl | hc
    · decide
    · exact isDigit_not_ws (hds c hc)
  have hkeep : ∀ c ∈ ('+' :: ds), (isDigitChar c || c == '+') = true := by
    intro c hc
    rcases List.mem_cons.mp hc with rfl | hc
    · decide
    · rw [hds c hc, Bool.true_or]
  have hdrop : ds.dropWhile (fun x => x == '+') = ds :=
    dropWhile_eq_self_of (fun c hc => isDigit_ne_plus (hds c hc))
  unfold cleanedOf keepPhoneChars
  rw [trim_eq_self hws, filter_eq_self_of hkeep]
  show rewrite00 ('+' :: ds.dropWhile (fun x => x == '+')) = '+' :: ds
  rw [hdrop]
  cases ds with
  | nil => rfl
  | cons d r => rfl

lemma cleanedOf_digits {ds : Str} (hds : ∀ c ∈ ds, isDigitChar c = true)
    (hne : ds ≠ []) (h00 : starts00 ds = false) : cleanedOf ds = ds := by
  have hws : ∀ c ∈ ds, isWs c = false := fun c hc => isDigit_not_ws (hds c hc)
  have hkeep : ∀ c ∈ ds, (isDigitChar c || c == '+') = true := by
    intro c hc
    rw [hds c hc, Bool.true_or]
  unfold cleanedOf keepPhoneChars
  rw [trim_eq_self hws, filter_eq_self_of hkeep]
  cases ds with
  | nil => exact absurd rfl hne
  | cons c r =>
    show rewrite00 (if (c == '+') = true then '+' :: r.dropWhile (fun x => x == '+')
                    else c :: r) = c :: r
    rw [isDigit_ne_plus (hds c (List.mem_cons_self c r))]
    simp only [Bool.false_eq_true, if_false]
    exact rewrite00_id h00

lemma normalizePhone_fix_plus {ds : Str} (hds : ∀ c ∈ ds, isDigitChar c = true) :
    normalizePhone ('+' :: ds) = some ⟨'+' :: ds, '+' :: ds, ds, '+' :: ds⟩ := by
  have hfil : ('+' :: ds).filter isDigitChar = ds := by
    rw [List.filter_cons]
    simp only [show isDigitChar '+' = false from by decide, Bool.false_eq_true, if_false]
    exact filter_eq_self_of hds
  unfold normalizePhone
  rw [if_neg (by simp), cleanedOf_plus_digits hds, hfil]
  simp

lemma normalizePhone_fix_digits {ds : Str} (hds : ∀ c ∈ ds, isDigitChar c = true)
    (hne : ds ≠ []) (h00 : starts00 ds = false) :
    normalizePhone ds = some ⟨ds, ds, ds, ds⟩ := by
  have hfil : ds.filter isDigitChar = ds := filter_eq_self_of hds
  have hhead : ds.head? ≠ some '+' := by
    cases ds with
    | nil => exact absurd rfl hne
    | cons c r =>
      rw [List.head?_cons, Ne, Option.some.injEq]
      intro hc
      subst hc
      exact absurd (hds '+' (List.mem_cons_self _ r)) (by decide)
  unfold normalizePhone
  rw [if_neg hne, cleanedOf_digits hds hne h00, hfil, if_neg hhead]

/-- Counterexample to C8 as stated: for the non-empty raw input `"a"` the
first application yields the empty e164-like form, on which `normalizePhone`
returns `null`; and for the non-empty raw input `"0+01"` the first e164-like
form is `"001"`, which renormalizes to `"+1"`, a different canonical form. -/
theorem normalizePhone_idem_cex :
    (normalizePhone "a".toList = some ⟨"a".toList, [], [], []⟩ ∧
     normalizePhone [] = none) ∧
    (normalizePhone "0+01".toList =
       some ⟨"0+01".toList, "0+01".toList, "001".toList, "001".toList⟩ ∧
     normalizePhone "001".toList =
       some ⟨"001".toList, "+1".toList, "1".toList, "+1".toList⟩ ∧
     ("+1".toList : Str) ≠ "001".toList) := by
  decide

/-- Claim C8 (amended): for every non-empty raw input whose first-pass
e164-like form is non-empty and does not start with `"00"`, applying
`normalizePhone` to that e164-like form succeeds and reproduces it exactly
(the whole record is the fixed point `⟨e164, e164, digits of e164, e164⟩`). -/
theorem normalizePhone_idem_amended (raw : Str) (rec : PhoneRecord)
    (h : normalizePhone raw = some rec) (hne : rec.e164 ≠ [])
    (h00 : starts00 rec.e164 = false) :
    normalizePhone rec.e164 =
      some ⟨rec.e164, rec.e164, rec.e164.filter isDigitChar, rec.e164⟩ := by
  have hshape : ∃ ds, (∀ c ∈ ds, isDigitChar c = true) ∧
      (rec.e164 = '+' :: ds ∨ rec.e164 = ds) := by
    unfold normalizePhone at h
    split at h
    · exact absurd h (by simp)
    · rw [Option.some.injEq] at h
      subst h
      refine ⟨(cleanedOf raw).filter isDigitChar,
              fun c hc => (List.mem_filter.mp hc).2, ?_⟩
      show (if (cleanedOf raw).head? = some '+'
            then '+' :: (cleanedOf raw).filter isDigitChar
            else (cleanedOf raw).filter isDigitChar) = _ ∨ _
      split
      · exact Or.inl rfl
      · exact Or.inr rfl
  obtain ⟨ds, hds, hplus | hdig⟩ := hshape
  · rw [hplus]
    have hfil : ('+' :: ds).filter isDigitChar = ds := by
      rw [List.filter_cons]
      simp only [show isDigitChar '+' = false from by decide, Bool.false_eq_true, if_false]
      exact filter_eq_self_of hds
    rw [hfil]
    exact normalizePhone_fix_plus hds
  · rw [hdig] at hne h00 ⊢
    rw [filter_eq_self_of hds]
    exact normalizePhone_fix_digits hds hne h00

/-- Witness for C8 at the canonical form of the spec's illustration input. -/
theorem normalizePhone_idem_amended_witness :
    normalizePhone "+15551234567".toList =
      some ⟨"+15551234567".toList, "+15551234567".toList,
            "15551234567".toList, "+15551234567".toList⟩ :=
  normalizePhone_idem_amended phoneExample phoneExampleRec
    (by decide) (by decide) (by decide)
